import Mathlib

/-!
Verification of the blackjack round engine of `src/app.py` (DADD24/Fortuna).

The Python source is shallowly embedded as pure Lean functions:

* `create_deck`, `calculate_hand_value`, `can_split_hand`, `can_double_down`
  translate the helper functions of the same names;
* the `play_blackjack` Dash callback is translated as the step function
  `step`, acting on an explicit `GameState` (the contents of the
  `blackjack-game-state` store), the user's token balance, the list of
  `transactions` rows inserted, and a log of the other database writes.
  The callback's early `return`s of `no_update` values (the toast/rejection
  paths) are modelled as outputs that echo the incoming state and balance
  and carry an error; `None` results model Python exceptions
  (`IndexError` from popping an exhausted deck or indexing a missing hand).

Machine integers are modelled as `Int`/`Nat`; the single fractional
computation `int(bet_amount * 2.5)` is modelled as `(5 * bet) / 2`
(truncated division), which agrees with the Python float computation for
every bet amount small enough for `5 * bet` to be exact in a double.
-/

/-- Card ranks, matching the thirteen strings in `create_deck`. -/
inductive Rank
  | A | n2 | n3 | n4 | n5 | n6 | n7 | n8 | n9 | n10 | J | Q | K
deriving DecidableEq, Repr

/-- The four suits of `create_deck` (display-only). -/
inductive Suit
  | spades | hearts | diamonds | clubs
deriving DecidableEq, Repr

/-- A card, as the dict `{"rank": ..., "suit": ...}` in the source. -/
structure Card where
  rank : Rank
  suit : Suit
deriving DecidableEq, Repr

/-- Rank order of the `ranks` list in `create_deck`. -/
def rankList : List Rank :=
  [Rank.A, Rank.n2, Rank.n3, Rank.n4, Rank.n5, Rank.n6, Rank.n7, Rank.n8,
   Rank.n9, Rank.n10, Rank.J, Rank.Q, Rank.K]

/-- Suit order of the `suits` list in `create_deck`. -/
def suitList : List Suit :=
  [Suit.spades, Suit.hearts, Suit.diamonds, Suit.clubs]

/-- Translation of `create_deck`: the comprehension
`[{rank, suit} for suit in suits for rank in ranks]` (suit-major order). -/
def create_deck : List Card :=
  suitList.flatMap (fun s => rankList.map (fun r => { rank := r, suit := s }))

/-- First-pass card value used by the accumulation loop of
`calculate_hand_value`: an Ace adds 11, J/Q/K add 10, numbers their face
value. -/
def rankBase : Rank → Nat
  | Rank.A => 11
  | Rank.n2 => 2
  | Rank.n3 => 3
  | Rank.n4 => 4
  | Rank.n5 => 5
  | Rank.n6 => 6
  | Rank.n7 => 7
  | Rank.n8 => 8
  | Rank.n9 => 9
  | Rank.n10 => 10
  | Rank.J => 10
  | Rank.Q => 10
  | Rank.K => 10

/-- Minimum value of a rank (every Ace counted as 1). Used only in
statements about `calculate_hand_value`, not by the embedded code. -/
def rankMin : Rank → Nat
  | Rank.A => 1
  | r => rankBase r

/-- Number of Aces in a hand (the `aces` counter of the source loop). -/
def countAces (hand : List Card) : Nat :=
  (hand.filter (fun c => c.rank == Rank.A)).length

/-- Translation of the `while value > 21 and aces > 0` demotion loop of
`calculate_hand_value`: each iteration subtracts 10 and consumes one Ace. -/
def demoteAces : Nat → Nat → Nat
  | value, 0 => value
  | value, aces + 1 => if 21 < value then demoteAces (value - 10) aces else value

/-- Translation of `calculate_hand_value`: sum card values with every Ace
as 11, then demote Aces from 11 to 1 while the total exceeds 21. -/
def calculate_hand_value (hand : List Card) : Nat :=
  demoteAces ((hand.map (fun c => rankBase c.rank)).sum) (countAces hand)

/-- Comparison key used by `can_split_hand`: the source maps the four
ten-valued ranks to the int 10 and compares every other rank by its
(distinct) rank string; distinct keys here mirror distinct strings there. -/
def splitKey : Rank → Nat
  | Rank.A => 1
  | Rank.n2 => 2
  | Rank.n3 => 3
  | Rank.n4 => 4
  | Rank.n5 => 5
  | Rank.n6 => 6
  | Rank.n7 => 7
  | Rank.n8 => 8
  | Rank.n9 => 9
  | Rank.n10 => 10
  | Rank.J => 10
  | Rank.Q => 10
  | Rank.K => 10

/-- Translation of `can_split_hand`: exactly two cards whose ranks agree
with 10/J/Q/K mutually identified. -/
def can_split_hand (hand : List Card) : Bool :=
  match hand with
  | [c1, c2] => splitKey c1.rank == splitKey c2.rank
  | _ => false

/-- Translation of `can_double_down`: exactly two cards. -/
def can_double_down (hand : List Card) : Bool :=
  hand.length == 2

/-- Modelled from the spec (for claim C3's refinement statement): the score
of a hand is the largest total reachable with each Ace counted as 1 or 11
that does not exceed 21, or the all-Aces-as-1 total when every choice
busts. This is the meaning of the spec's one-at-a-time demotion rule. -/
def specScore (hand : List Card) : Nat :=
  ((((List.range (countAces hand + 1)).map
      (fun j => (hand.map (fun c => rankMin c.rank)).sum + 10 * j)).filter
      (fun t => t ≤ 21)).foldr max ((hand.map (fun c => rankMin c.rank)).sum))

/-- Hand status strings used by the callback: "active", "stand", "bust". -/
inductive HandStatus
  | active | stand | bust
deriving DecidableEq, Repr

/-- One player hand, as the dicts stored under `"hands"` in the
`blackjack-game-state` store. -/
structure Hand where
  cards : List Card
  bet_amount : Int
  status : HandStatus
  is_doubled : Bool
deriving DecidableEq, Repr

/-- The `blackjack-game-state` store contents (the opaque database key
`round_id` is not modelled; it only addresses rows of the write log). -/
structure GameState where
  deck : List Card
  dealer_hand : List Card
  hands : List Hand
  current_hand : Nat
  game_active : Bool
  dealer_turn : Bool
  initial_bet : Int
deriving DecidableEq, Repr

/-- A row of the `transactions` audit table: transaction_type and amount. -/
structure Txn where
  ttype : String
  amount : Int
deriving DecidableEq, Repr

/-- Database writes other than token-balance updates and `transactions`
inserts, in execution order. -/
inductive DbWrite
  | roundInsert | handInsert | handUpdate | roundUpdate
deriving DecidableEq, Repr

/-- The two toast rejections the callback can produce. -/
inductive BJError
  | invalidBet | insufficientFunds
deriving DecidableEq, Repr

/-- The five buttons wired to the `play_blackjack` callback. -/
inductive Act
  | deal | hit | stand | double | split
deriving DecidableEq, Repr

/-- The observable outcome of one callback invocation: the stored game
state, the user's token balance, the `transactions` rows inserted, the
other database writes, the five button `disabled` outputs (`none` models
`no_update`, returned on the toast paths), and the toast error if any.
On a toast path the callback returns `no_update` for state and balance,
so `state` and `balance` echo the inputs there. -/
structure Out where
  state : GameState
  balance : Int
  txns : List Txn
  writes : List DbWrite
  deal_disabled : Option Bool
  hit_disabled : Option Bool
  stand_disabled : Option Bool
  double_disabled : Option Bool
  split_disabled : Option Bool
  err : Option BJError
deriving DecidableEq, Repr

/-- The early-return rejection outcome: every output is `no_update`
(state and balance unchanged, no database writes), plus a toast. -/
def rejectOut (s : GameState) (bal : Int) (e : BJError) : Out :=
  { state := s, balance := bal, txns := [], writes := [],
    deal_disabled := none, hit_disabled := none, stand_disabled := none,
    double_disabled := none, split_disabled := none, err := some e }

/-- The callback's fall-through outcome when no branch fires: the state
copy is returned unchanged, the balance output is `no_update`, and the
button flags keep their defaults (deal enabled, the rest disabled). -/
def passOut (s : GameState) (bal : Int) : Out :=
  { state := s, balance := bal, txns := [], writes := [],
    deal_disabled := some false, hit_disabled := some true,
    stand_disabled := some true, double_disabled := some true,
    split_disabled := some true, err := none }

/-- Translation of `deck.pop()`: Python pops the LAST element of the list.
Returns `none` on an empty deck (Python raises `IndexError`). -/
def popCard (deck : List Card) : Option (Card × List Card) :=
  match deck.getLast? with
  | some c => some (c, deck.dropLast)
  | none => none

/-- Translation of the dealer loop `while dealer_score < 17: append pop`.
The fuel argument is instantiated with the deck length, so fuel runs out
exactly when the deck does; a demanded draw from an empty deck is `none`
(Python raises). -/
def dealerDraw : Nat → List Card → List Card → Option (List Card × List Card)
  | 0, deck, hand =>
      if calculate_hand_value hand < 17 then none else some (hand, deck)
  | fuel + 1, deck, hand =>
      if calculate_hand_value hand < 17 then
        match popCard deck with
        | some (c, deck') => dealerDraw fuel deck' (hand ++ [c])
        | none => none
      else some (hand, deck)

/-- Per-hand settlement, the body of the `for i, hand in enumerate(...)`
loop: result string and payout, in the source's test order. -/
def settleHand (dealer_score : Nat) (h : Hand) : String × Int :=
  if h.status = HandStatus.bust then ("lose", 0)
  else if 21 < dealer_score then ("win", h.bet_amount * 2)
  else if dealer_score < calculate_hand_value h.cards then ("win", h.bet_amount * 2)
  else if calculate_hand_value h.cards < dealer_score then ("lose", 0)
  else ("push", h.bet_amount)

/-- The settlement loop: per-hand results in hand order together with the
accumulated `total_payout`. -/
def settleHands (dealer_score : Nat) : List Hand → List (String × Int) × Int
  | [] => ([], 0)
  | h :: t =>
      ((settleHand dealer_score h) :: (settleHands dealer_score t).1,
       (settleHand dealer_score h).2 + (settleHands dealer_score t).2)

/-- Sum of the hands' current bet_amounts, the
`sum(hand["bet_amount"] for hand in ...)` of the settlement block. -/
def sumBets (hands : List Hand) : Int :=
  (hands.map (fun h => h.bet_amount)).sum

/-- Translation of the deal-button branch. `shuffle` is the deck as left
by `random.shuffle`; `bet` is the bet-amount input (`None`/non-positive
rejected); `bal` the user's token balance. -/
def dealBranch (shuffle : List Card) (bet : Int) (s : GameState) (bal : Int) :
    Option Out :=
  if bet ≤ 0 then some (rejectOut s bal BJError.invalidBet)
  else if bal < bet then some (rejectOut s bal BJError.insufficientFunds)
  else
    match popCard shuffle with
    | none => none
    | some (p1, d1) =>
      match popCard d1 with
      | none => none
      | some (p2, d2) =>
        match popCard d2 with
        | none => none
        | some (c1, d3) =>
          match popCard d3 with
          | none => none
          | some (c2, d4) =>
            let player : List Card := [p1, p2]
            let dealer : List Card := [c1, c2]
            let st : GameState :=
              { deck := d4, dealer_hand := dealer,
                hands := [{ cards := player, bet_amount := bet,
                            status := HandStatus.active, is_doubled := false }],
                current_hand := 0, game_active := true, dealer_turn := false,
                initial_bet := bet }
            let player_score := calculate_hand_value player
            let dealer_score := calculate_hand_value dealer
            if player_score = 21 then
              let payout : Int :=
                if dealer_score = 21 then bet else (5 * bet) / 2
              let ttype : String :=
                if dealer_score = 21 then "blackjack_push" else "blackjack_blackjack"
              some { state := { st with game_active := false },
                     balance := bal - bet + payout,
                     txns := [{ ttype := ttype, amount := payout - bet }],
                     writes := [DbWrite.roundInsert, DbWrite.handInsert,
                                DbWrite.roundUpdate, DbWrite.handUpdate],
                     deal_disabled := some false, hit_disabled := some true,
                     stand_disabled := some true, double_disabled := some true,
                     split_disabled := some true, err := none }
            else
              some { state := st, balance := bal - bet, txns := [],
                     writes := [DbWrite.roundInsert, DbWrite.handInsert],
                     deal_disabled := some true, hit_disabled := some false,
                     stand_disabled := some false,
                     double_disabled :=
                       some (if can_double_down player = true ∧ bet ≤ bal
                             then false else true),
                     split_disabled :=
                       some (if can_split_hand player = true ∧ bet ≤ bal
                             then false else true),
                     err := none }

/-- Button flags produced when play advances to the next hand (shared by
the hit/double terminal case and the stand branch): hit/stand re-enable
only if the next hand is active, double re-enables only after a fresh
balance check; deal keeps its default (enabled) and split stays disabled. -/
def advanceFlags (next : Hand) (bal : Int) : Option Bool × Option Bool × Option Bool :=
  if next.status = HandStatus.active then
    (some false, some false,
     some (if can_double_down next.cards = true ∧ next.bet_amount ≤ bal
           then false else true))
  else (some true, some true, some true)

/-- Translation of the hit-button / double-button branch
(`button_id in ["hit-button", "double-button"] and game_active`). -/
def hitBranch (is_double : Bool) (s : GameState) (bal : Int) : Option Out :=
  if s.game_active = true then
    match s.hands.get? s.current_hand with
    | none => none
    | some hand0 =>
      if is_double = true ∧ bal < hand0.bet_amount then
        some (rejectOut s bal BJError.insufficientFunds)
      else
        let bal1 : Int := if is_double then bal - hand0.bet_amount else bal
        let hand1 : Hand :=
          if is_double then
            { hand0 with bet_amount := hand0.bet_amount * 2, is_doubled := true }
          else hand0
        match popCard s.deck with
        | none => none
        | some (c, deck') =>
          let cards' := hand1.cards ++ [c]
          let score := calculate_hand_value cards'
          let status' : HandStatus :=
            if 21 < score then HandStatus.bust
            else if is_double then HandStatus.stand
            else hand1.status
          let hand2 : Hand := { hand1 with cards := cards', status := status' }
          let hands' := s.hands.set s.current_hand hand2
          if status' = HandStatus.bust ∨ status' = HandStatus.stand then
            if s.current_hand + 1 < hands'.length then
              match hands'.get? (s.current_hand + 1) with
              | none => none
              | some next =>
                let st := { s with deck := deck', hands := hands' }
                some { state := { st with current_hand := s.current_hand + 1 },
                       balance := bal1, txns := [], writes := [DbWrite.handUpdate],
                       deal_disabled := some false,
                       hit_disabled := (advanceFlags next bal1).1,
                       stand_disabled := (advanceFlags next bal1).2.1,
                       double_disabled := (advanceFlags next bal1).2.2,
                       split_disabled := some true, err := none }
            else
              let st := { s with deck := deck', hands := hands' }
              some { state := { st with dealer_turn := true },
                     balance := bal1, txns := [], writes := [DbWrite.handUpdate],
                     deal_disabled := some false, hit_disabled := some true,
                     stand_disabled := some true, double_disabled := some true,
                     split_disabled := some true, err := none }
          else
            some { state := { s with deck := deck', hands := hands' },
                   balance := bal1, txns := [], writes := [DbWrite.handUpdate],
                   deal_disabled := some false, hit_disabled := some false,
                   stand_disabled := some false, double_disabled := some true,
                   split_disabled := some true, err := none }
  else some (passOut s bal)

/-- Translation of the stand-button branch. -/
def standBranch (s : GameState) (bal : Int) : Option Out :=
  if s.game_active = true then
    match s.hands.get? s.current_hand with
    | none => none
    | some hand0 =>
      let hand' : Hand := { hand0 with status := HandStatus.stand }
      let hands' := s.hands.set s.current_hand hand'
      if s.current_hand + 1 < hands'.length then
        match hands'.get? (s.current_hand + 1) with
        | none => none
        | some next =>
          let st := { s with hands := hands' }
          some { state := { st with current_hand := s.current_hand + 1 },
                 balance := bal, txns := [], writes := [DbWrite.handUpdate],
                 deal_disabled := some false,
                 hit_disabled := (advanceFlags next bal).1,
                 stand_disabled := (advanceFlags next bal).2.1,
                 double_disabled := (advanceFlags next bal).2.2,
                 split_disabled := some true, err := none }
      else
        let st := { s with hands := hands' }
        some { state := { st with dealer_turn := true },
               balance := bal, txns := [], writes := [DbWrite.handUpdate],
               deal_disabled := some false, hit_disabled := some true,
               stand_disabled := some true, double_disabled := some true,
               split_disabled := some true, err := none }
  else some (passOut s bal)

/-- Translation of the split-button branch: debit one extra bet, replace
the current hand's cards by its first card plus a drawn card, append a
second hand made of its second card plus a drawn card; the split button is
then disabled unconditionally. A current hand with fewer than two cards
would raise in Python (`cards[0]`/`cards[1]`), modelled as `none`; extra
cards beyond the first two are discarded, as in the source. -/
def splitBranch (s : GameState) (bal : Int) : Option Out :=
  if s.game_active = true then
    match s.hands.get? s.current_hand with
    | none => none
    | some hand0 =>
      if bal < hand0.bet_amount then
        some (rejectOut s bal BJError.insufficientFunds)
      else
        match hand0.cards with
        | c0 :: c1 :: _ =>
          match popCard s.deck with
          | none => none
          | some (n1, deck1) =>
            match popCard deck1 with
            | none => none
            | some (n2, deck2) =>
              let first : Hand :=
                { hand0 with cards := [c0, n1], status := HandStatus.active }
              let second : Hand :=
                { cards := [c1, n2], bet_amount := hand0.bet_amount,
                  status := HandStatus.active, is_doubled := false }
              let hands' := (s.hands.set s.current_hand first) ++ [second]
              some { state := { s with deck := deck2, hands := hands' },
                     balance := bal - hand0.bet_amount, txns := [],
                     writes := [DbWrite.handUpdate, DbWrite.handInsert],
                     deal_disabled := some false, hit_disabled := some false,
                     stand_disabled := some false,
                     double_disabled :=
                       some (if can_double_down first.cards = true ∧
                                first.bet_amount ≤ bal - hand0.bet_amount
                             then false else true),
                     split_disabled := some true, err := none }
        | _ => none
  else some (passOut s bal)

/-- Translation of the trailing dealer-turn/settlement block
(`if new_game_state.get("dealer_turn") and new_game_state.get("game_active")`),
which runs after the action branch unless the branch early-returned with a
toast: the dealer draws to 17, every hand is settled in order, the total
payout is credited once and a single audit transaction records
`total_payout - sum(bet_amounts)`. -/
def settleWrapper (o : Out) : Option Out :=
  if o.err.isSome then some o
  else if o.state.dealer_turn = true ∧ o.state.game_active = true then
    match dealerDraw o.state.deck.length o.state.deck o.state.dealer_hand with
    | none => none
    | some (dh, deck') =>
      let ds := calculate_hand_value dh
      let total := (settleHands ds o.state.hands).2
      let netChange := total - sumBets o.state.hands
      let st := { o.state with dealer_hand := dh, deck := deck' }
      some { state := { st with game_active := false },
             balance := o.balance + total,
             txns := o.txns ++ [{ ttype := "blackjack_round", amount := netChange }],
             writes := o.writes ++
               List.replicate o.state.hands.length DbWrite.handUpdate ++
               [DbWrite.roundUpdate],
             deal_disabled := some false, hit_disabled := some true,
             stand_disabled := some true, double_disabled := some true,
             split_disabled := some true, err := none }
  else some o

/-- One invocation of the `play_blackjack` callback: dispatch on the
triggering button, then run the dealer/settlement block. -/
def step (a : Act) (shuffle : List Card) (bet : Int) (s : GameState)
    (bal : Int) : Option Out :=
  match a with
  | Act.deal => (dealBranch shuffle bet s bal).bind settleWrapper
  | Act.hit => (hitBranch false s bal).bind settleWrapper
  | Act.double => (hitBranch true s bal).bind settleWrapper
  | Act.stand => (standBranch s bal).bind settleWrapper
  | Act.split => (splitBranch s bal).bind settleWrapper

/-- Run a sequence of post-deal actions, threading state, balance and the
accumulated transaction rows. -/
def runPlay : List Act → GameState → Int → List Txn →
    Option (GameState × Int × List Txn)
  | [], s, bal, t => some (s, bal, t)
  | a :: rest, s, bal, t =>
      match step a [] 0 s bal with
      | none => none
      | some o => runPlay rest o.state o.balance (t ++ o.txns)

/-- A whole round: a successful deal that does not settle immediately
(the normal, non-immediate-blackjack path), followed by player actions. -/
def runRound (shuffle : List Card) (bet : Int) (acts : List Act)
    (s : GameState) (bal : Int) : Option (GameState × Int × List Txn) :=
  match step Act.deal shuffle bet s bal with
  | none => none
  | some o =>
      if o.err = none ∧ o.state.game_active = true then
        runPlay acts o.state o.balance o.txns
      else none

/-- The initial store contents set up by `render_blackjack_tab`: empty
round, no game in progress. -/
def idleState : GameState :=
  { deck := [], dealer_hand := [], hands := [], current_hand := 0,
    game_active := false, dealer_turn := false, initial_bet := 0 }

/-- Concrete cards used in example statements. -/
def aceSpades : Card := { rank := Rank.A, suit := Suit.spades }

def aceHearts : Card := { rank := Rank.A, suit := Suit.hearts }

def aceDiamonds : Card := { rank := Rank.A, suit := Suit.diamonds }

def sixClubs : Card := { rank := Rank.n6, suit := Suit.clubs }

def kingDiamonds : Card := { rank := Rank.K, suit := Suit.diamonds }

/-- Closed form of the demotion loop: starting from a total whose Aces all
count 11, the loop returns the all-ones total when even that busts, and
otherwise demotes just enough Aces to reach 21 or below. -/
lemma demote_closed : ∀ (a v : Nat),
    demoteAces (v + 10 * a) a =
      if 21 < v then v else v + 10 * min a ((21 - v) / 10) := by
  intro a
  induction a with
  | zero =>
    intro v
    simp only [Nat.mul_zero, Nat.add_zero, demoteAces, Nat.min_zero]
    split_ifs <;> omega
  | succ n ih =>
    intro v
    have hrw : v + 10 * (n + 1) - 10 = v + 10 * n := by omega
    simp only [demoteAces, hrw]
    by_cases h21 : 21 < v + 10 * (n + 1)
    · rw [if_pos h21, ih v]
      split_ifs with hv
      · rfl
      · omega
    · rw [if_neg h21]
      split_ifs with hv
      · omega
      · omega

/-- Pointwise relation between the two rank values. -/
lemma rankBase_eq (r : Rank) :
    rankBase r = rankMin r + (if r = Rank.A then 10 else 0) := by
  cases r <;> rfl

/-- Unfolding of the Ace counter over a cons. -/
lemma countAces_cons (c : Card) (t : List Card) :
    countAces (c :: t) = (if c.rank = Rank.A then 1 else 0) + countAces t := by
  by_cases hc : c.rank = Rank.A
  · simp [countAces, List.filter_cons, hc]
    omega
  · simp [countAces, List.filter_cons, hc]

/-- The total with Aces as 11 equals the all-ones total plus 10 per Ace. -/
lemma base_split (h : List Card) :
    (h.map (fun c => rankBase c.rank)).sum =
      (h.map (fun c => rankMin c.rank)).sum + 10 * countAces h := by
  induction h with
  | nil => simp [countAces]
  | cons c t ih =>
    simp only [List.map_cons, List.sum_cons, countAces_cons]
    rw [rankBase_eq c.rank]
    by_cases hc : c.rank = Rank.A
    · rw [if_pos hc, if_pos hc]
      omega
    · rw [if_neg hc, if_neg hc]
      omega

/-- Upper bound for a foldr over max. -/
lemma foldr_max_le (l : List Nat) (b m : Nat) (hb : b ≤ m)
    (hl : ∀ x ∈ l, x ≤ m) : l.foldr max b ≤ m := by
  induction l with
  | nil => simpa
  | cons a t ih =>
    simp only [List.foldr_cons]
    exact max_le (hl a (by simp)) (ih (fun x hx => hl x (by simp [hx])))

/-- A member is a lower bound for a foldr over max. -/
lemma mem_le_foldr_max (l : List Nat) (b m : Nat) (hm : m ∈ l) :
    m ≤ l.foldr max b := by
  induction l with
  | nil => cases hm
  | cons a t ih =>
    simp only [List.foldr_cons]
    rcases List.mem_cons.mp hm with h | h
    · exact h ▸ le_max_left _ _
    · exact le_trans (ih h) (le_max_right _ _)

/-- Closed form of `specScore`. -/
lemma spec_closed (h : List Card) :
    specScore h =
      if 21 < (h.map (fun c => rankMin c.rank)).sum
      then (h.map (fun c => rankMin c.rank)).sum
      else (h.map (fun c => rankMin c.rank)).sum +
        10 * min (countAces h)
          ((21 - (h.map (fun c => rankMin c.rank)).sum) / 10) := by
  unfold specScore
  split_ifs with hb
  · have hnil :
        (((List.range (countAces h + 1)).map
          (fun j => (h.map (fun c => rankMin c.rank)).sum + 10 * j)).filter
          (fun t => t ≤ 21)) = [] := by
      apply List.filter_eq_nil_iff.mpr
      intro t ht
      rcases List.mem_map.mp ht with ⟨j, _, rfl⟩
      simp only [decide_eq_true_eq]
      omega
    rw [hnil]
    rfl
  · apply le_antisymm
    · apply foldr_max_le
      · omega
      · intro x hx
        rcases List.mem_filter.mp hx with ⟨hx1, hx2⟩
        rcases List.mem_map.mp hx1 with ⟨j, hj, rfl⟩
        rw [List.mem_range] at hj
        rw [decide_eq_true_eq] at hx2
        omega
    · apply mem_le_foldr_max
      apply List.mem_filter.mpr
      constructor
      · apply List.mem_map.mpr
        refine ⟨min (countAces h) ((21 - (h.map (fun c => rankMin c.rank)).sum) / 10), ?_, rfl⟩
        rw [List.mem_range]
        omega
      · rw [decide_eq_true_eq]
        omega

/-- C3: for every list of cards, `calculate_hand_value` computes the
spec's score — each Ace counts 11 unless that busts the hand while an Ace
is still demotable, demoting one Ace at a time (equivalently: the best
total not exceeding 21, or the all-ones total); in particular two Aces
alone score 12 and three Aces alone score 13. -/
theorem c3_score_matches_spec :
    (∀ h : List Card, calculate_hand_value h = specScore h) ∧
    calculate_hand_value [aceSpades, aceHearts] = 12 ∧
    calculate_hand_value [aceSpades, aceHearts, aceDiamonds] = 13 := by
  refine ⟨?_, by decide, by decide⟩
  intro h
  unfold calculate_hand_value
  rw [base_split h, demote_closed, spec_closed]

/-- C2: at settlement each player hand is resolved independently, in hand
order, by: bust loses with payout 0 (even when the dealer also busts);
otherwise a dealer score over 21 wins double the bet; otherwise the higher
score wins double the bet / loses / pushes the bet on a tie; and the
settlement loop is exactly the in-order map of this per-hand rule, with
`total_payout` its sum. -/
theorem c2_settlement_cases :
    (∀ (ds : Nat) (h : Hand), h.status = HandStatus.bust →
        settleHand ds h = ("lose", 0)) ∧
    (∀ (ds : Nat) (h : Hand), h.status ≠ HandStatus.bust → 21 < ds →
        settleHand ds h = ("win", h.bet_amount * 2)) ∧
    (∀ (ds : Nat) (h : Hand), h.status ≠ HandStatus.bust → ds ≤ 21 →
        ds < calculate_hand_value h.cards →
        settleHand ds h = ("win", h.bet_amount * 2)) ∧
    (∀ (ds : Nat) (h : Hand), h.status ≠ HandStatus.bust → ds ≤ 21 →
        calculate_hand_value h.cards < ds →
        settleHand ds h = ("lose", 0)) ∧
    (∀ (ds : Nat) (h : Hand), h.status ≠ HandStatus.bust → ds ≤ 21 →
        calculate_hand_value h.cards = ds →
        settleHand ds h = ("push", h.bet_amount)) ∧
    (∀ (ds : Nat) (hs : List Hand),
        (settleHands ds hs).1 = hs.map (settleHand ds) ∧
        (settleHands ds hs).2 = ((hs.map (settleHand ds)).map Prod.snd).sum) := by
  refine ⟨?_, ?_, ?_, ?_, ?_, ?_⟩
  · intro ds h hb
    simp [settleHand, hb]
  · intro ds h hb hds
    simp only [settleHand]
    rw [if_neg hb, if_pos hds]
  · intro ds h hb hds hlt
    simp only [settleHand]
    rw [if_neg hb, if_neg (by omega), if_pos hlt]
  · intro ds h hb hds hgt
    simp only [settleHand]
    rw [if_neg hb, if_neg (by omega), if_neg (by omega), if_pos hgt]
  · intro ds h hb hds heq
    simp only [settleHand]
    rw [if_neg hb, if_neg (by omega), if_neg (by omega), if_neg (by omega)]
  · intro ds hs
    induction hs with
    | nil => simp [settleHands]
    | cons h t ih =>
      simp [settleHands, ih.1, ih.2]

/-- Witness for C2 at a concrete busted hand. -/
theorem c2_settlement_cases_witness :
    ({ cards := [kingDiamonds, sixClubs, aceSpades], bet_amount := 10,
       status := HandStatus.bust, is_doubled := false } : Hand).status =
      HandStatus.bust ∧
    settleHand 23
      { cards := [kingDiamonds, sixClubs, aceSpades], bet_amount := 10,
        status := HandStatus.bust, is_doubled := false } = ("lose", 0) :=
  ⟨rfl, c2_settlement_cases.1 23 _ rfl⟩

/-- C8: the dealer's play is deterministic — it draws one card at a time
exactly while its score is below 17 and stands on any score of 17 or more,
including soft 17; concretely, a dealer holding Ace-six draws nothing. -/
theorem c8_dealer_stands_on_17 :
    (∀ (fuel : Nat) (deck hand : List Card), 17 ≤ calculate_hand_value hand →
        dealerDraw fuel deck hand = some (hand, deck)) ∧
    (∀ (fuel : Nat) (deck hand : List Card) (c : Card) (rest : List Card),
        calculate_hand_value hand < 17 → popCard deck = some (c, rest) →
        dealerDraw (fuel + 1) deck hand = dealerDraw fuel rest (hand ++ [c])) ∧
    (∀ (fuel : Nat) (deck hand dh deck' : List Card),
        dealerDraw fuel deck hand = some (dh, deck') →
        17 ≤ calculate_hand_value dh) ∧
    dealerDraw 52 create_deck [aceDiamonds, sixClubs] =
      some ([aceDiamonds, sixClubs], create_deck) := by
  refine ⟨?_, ?_, ?_, by decide⟩
  · intro fuel deck hand hge
    cases fuel with
    | zero => simp [dealerDraw, Nat.not_lt.mpr hge]
    | succ n => simp [dealerDraw, Nat.not_lt.mpr hge]
  · intro fuel deck hand c rest hlt hpop
    simp [dealerDraw, hlt, hpop]
  · intro fuel
    induction fuel with
    | zero =>
      intro deck hand dh deck' hrun
      simp only [dealerDraw] at hrun
      by_cases hlt : calculate_hand_value hand < 17
      · rw [if_pos hlt] at hrun
        cases hrun
      · rw [if_neg hlt] at hrun
        cases hrun
        exact Nat.le_of_not_lt hlt
    | succ n ih =>
      intro deck hand dh deck' hrun
      simp only [dealerDraw] at hrun
      by_cases hlt : calculate_hand_value hand < 17
      · rw [if_pos hlt] at hrun
        cases hpop : popCard deck with
        | none => rw [hpop] at hrun; cases hrun
        | some p => rw [hpop] at hrun; exact ih _ _ _ _ hrun
      · rw [if_neg hlt] at hrun
        cases hrun
        exact Nat.le_of_not_lt hlt

/-- Witness for C8 at a concrete soft-17 dealer hand. -/
theorem c8_dealer_stands_on_17_witness :
    17 ≤ calculate_hand_value [aceDiamonds, sixClubs] ∧
    dealerDraw 3 [kingDiamonds] [aceDiamonds, sixClubs] =
      some ([aceDiamonds, sixClubs], [kingDiamonds]) :=
  ⟨by decide, c8_dealer_stands_on_17.1 3 [kingDiamonds] _ (by decide)⟩

/-- Popping returns the last card: re-appending it restores the deck. -/
lemma popCard_eq (deck : List Card) (c : Card) (rest : List Card)
    (h : popCard deck = some (c, rest)) : rest ++ [c] = deck := by
  unfold popCard at h
  cases hg : deck.getLast? with
  | none => rw [hg] at h; cases h
  | some x =>
    rw [hg] at h
    cases h
    have hne : deck ≠ [] := by
      intro he
      rw [he] at hg
      cases hg
    have h2 : deck.getLast? = some (deck.getLast hne) :=
      List.getLast?_eq_getLast deck hne
    rw [hg] at h2
    cases h2
    exact List.dropLast_append_getLast hne

/-- Popping a deck written as list-plus-last-card. -/
lemma popCard_concat (l : List Card) (x : Card) :
    popCard (l ++ [x]) = some (x, l) := by
  unfold popCard
  rw [List.getLast?_concat, List.dropLast_concat]

/-- Replacing one list element shifts a mapped sum by the difference of
the images (stated additively so it also applies to multisets). -/
lemma map_set_sum {β : Type} [AddCommMonoid β] (f : Hand → β) :
    ∀ (l : List Hand) (i : Nat) (a a' : Hand), l.get? i = some a →
      ((l.set i a').map f).sum + f a = (l.map f).sum + f a' := by
  intro l
  induction l with
  | nil => intro i a a' h; cases h
  | cons b t ih =>
    intro i a a' h
    cases i with
    | zero =>
      cases h
      simp only [List.set, List.map_cons, List.sum_cons]
      rw [add_comm (f a') ((t.map f).sum), add_assoc, add_comm _ (f b),
        ← add_assoc, add_comm (f b) ((t.map f).sum)]
    | succ n =>
      simp only [List.get?] at h
      simp only [List.set, List.map_cons, List.sum_cons]
      rw [add_assoc, ih n a a' h, ← add_assoc]

/-- The multiset of all cards held by the player hands. -/
def handsCards (hs : List Hand) : Multiset Card :=
  (hs.map (fun h => (h.cards : Multiset Card))).sum

/-- The multiset of every card of the round: player hands, dealer hand and
remaining deck ("drawn union remaining"). -/
def roundMass (s : GameState) : Multiset Card :=
  handsCards s.hands + (s.dealer_hand : Multiset Card) + (s.deck : Multiset Card)

/-- Dealer auto-play only moves cards from the deck to the dealer hand. -/
lemma dealerDraw_mass : ∀ (fuel : Nat) (deck hand dh deck' : List Card),
    dealerDraw fuel deck hand = some (dh, deck') →
    (dh : Multiset Card) + (deck' : Multiset Card) =
      (hand : Multiset Card) + (deck : Multiset Card) := by
  intro fuel
  induction fuel with
  | zero =>
    intro deck hand dh deck' h
    simp only [dealerDraw] at h
    by_cases hlt : calculate_hand_value hand < 17
    · rw [if_pos hlt] at h
      cases h
    · rw [if_neg hlt] at h
      cases h
      rfl
  | succ n ih =>
    intro deck hand dh deck' h
    simp only [dealerDraw] at h
    by_cases hlt : calculate_hand_value hand < 17
    · rw [if_pos hlt] at h
      cases hpop : popCard deck with
      | none => rw [hpop] at h; cases h
      | some p =>
        rw [hpop] at h
        have hmass := ih p.2 (hand ++ [p.1]) dh deck' h
        have hdeck : p.2 ++ [p.1] = deck := popCard_eq deck p.1 p.2 (by rw [hpop])
        rw [← hdeck]
        have e1 : ((hand ++ [p.1] : List Card) : Multiset Card) =
            (hand : Multiset Card) + ([p.1] : List Card) := by
          exact_mod_cast (Multiset.coe_add hand [p.1]).symm
        have e2 : ((p.2 ++ [p.1] : List Card) : Multiset Card) =
            (p.2 : Multiset Card) + ([p.1] : List Card) := by
          exact_mod_cast (Multiset.coe_add p.2 [p.1]).symm
        rw [e2, hmass, e1]
        rw [add_assoc, add_comm (([p.1] : List Card) : Multiset Card), ← add_assoc]
    · rw [if_neg hlt] at h
      cases h
      rfl

/-- Inversion for the dealer/settlement block: either it passes the branch
outcome through unchanged, or it fires — drawing the dealer hand, leaving
the player hands untouched, crediting the total payout once and appending
the single audit transaction with `total_payout - sum(bets)`. -/
lemma settleWrapper_inv (o o' : Out) (h : settleWrapper o = some o') :
    o' = o ∨
    (∃ dh deck',
      dealerDraw o.state.deck.length o.state.deck o.state.dealer_hand =
        some (dh, deck') ∧
      o.err = none ∧ o.state.dealer_turn = true ∧ o.state.game_active = true ∧
      o'.state.deck = deck' ∧ o'.state.dealer_hand = dh ∧
      o'.state.hands = o.state.hands ∧
      o'.state.current_hand = o.state.current_hand ∧
      o'.state.game_active = false ∧
      o'.balance = o.balance +
        (settleHands (calculate_hand_value dh) o.state.hands).2 ∧
      o'.txns = o.txns ++ [Txn.mk "blackjack_round"
        ((settleHands (calculate_hand_value dh) o.state.hands).2 -
          sumBets o.state.hands)] ∧
      o'.err = none ∧ o'.split_disabled = some true ∧
      o'.deal_disabled = some false) := by
  unfold settleWrapper at h
  by_cases he : o.err.isSome
  · rw [if_pos he] at h
    cases h
    exact Or.inl rfl
  · rw [if_neg he] at h
    by_cases hc : o.state.dealer_turn = true ∧ o.state.game_active = true
    · rw [if_pos hc] at h
      cases hdraw : dealerDraw o.state.deck.length o.state.deck o.state.dealer_hand with
      | none => rw [hdraw] at h; cases h
      | some p =>
        obtain ⟨dh, deck'⟩ := p
        rw [hdraw] at h
        cases h
        refine Or.inr ⟨dh, deck', ?_, ?_, hc.1, hc.2,
          ?_, ?_, ?_, ?_, ?_, ?_, ?_, ?_, ?_, ?_⟩ <;>
          first
          | rfl
          | exact hdraw
          | exact Option.not_isSome_iff_eq_none.mp he
    · rw [if_neg hc] at h
      cases h
      exact Or.inl rfl

/-- Inversion for the hit/double branch: either the game is inactive and
the branch falls through, or the double is rejected for funds, or one card
is drawn from the deck into the current hand (whose bet doubles exactly
when doubling), debiting the extra bet on a double and writing no
transaction. -/
lemma hitBranch_spec (d : Bool) (s : GameState) (bal : Int) (m : Out)
    (h : hitBranch d s bal = some m) :
    (s.game_active = false ∧ m = passOut s bal) ∨
    (m = rejectOut s bal BJError.insufficientFunds) ∨
    (∃ (h0 : Hand) (c : Card) (deck' : List Card) (st2 : Hand),
      s.hands.get? s.current_hand = some h0 ∧
      popCard s.deck = some (c, deck') ∧
      m.state.hands = s.hands.set s.current_hand st2 ∧
      st2.cards = h0.cards ++ [c] ∧
      st2.bet_amount = (if d = true then h0.bet_amount * 2 else h0.bet_amount) ∧
      m.state.deck = deck' ∧
      m.state.dealer_hand = s.dealer_hand ∧
      m.state.game_active = s.game_active ∧
      m.balance = (if d = true then bal - h0.bet_amount else bal) ∧
      m.txns = [] ∧ m.err = none) := by
  unfold hitBranch at h
  by_cases hact : s.game_active = true
  · rw [if_pos hact] at h
    cases hh : s.hands.get? s.current_hand with
    | none =>
      rw [hh] at h
      cases h
    | some h0 =>
      rw [hh] at h
      dsimp only at h
      by_cases hrej : d = true ∧ bal < h0.bet_amount
      · rw [if_pos hrej] at h
        cases h
        exact Or.inr (Or.inl rfl)
      · rw [if_neg hrej] at h
        cases hpop : popCard s.deck with
        | none =>
          rw [hpop] at h
          cases h
        | some p =>
          obtain ⟨c, deck'⟩ := p
          rw [hpop] at h
          dsimp only at h
          repeat' split at h
          all_goals cases h
          all_goals
            refine Or.inr (Or.inr ⟨h0, c, deck', _, rfl, rfl, rfl, ?_, ?_,
              rfl, rfl, rfl, ?_, rfl, rfl⟩) <;> simp_all
  · rw [if_neg hact] at h
    cases h
    exact Or.inl ⟨Bool.not_eq_true s.game_active ▸ hact, rfl⟩

/-- Inversion for the stand branch: the current hand's status is set to
stand; cards, bets, deck and balance are untouched. -/
lemma standBranch_spec (s : GameState) (bal : Int) (m : Out)
    (h : standBranch s bal = some m) :
    (s.game_active = false ∧ m = passOut s bal) ∨
    (∃ (h0 : Hand) (st2 : Hand),
      s.hands.get? s.current_hand = some h0 ∧
      m.state.hands = s.hands.set s.current_hand st2 ∧
      st2.cards = h0.cards ∧
      st2.bet_amount = h0.bet_amount ∧
      m.state.deck = s.deck ∧
      m.state.dealer_hand = s.dealer_hand ∧
      m.state.game_active = s.game_active ∧
      m.balance = bal ∧ m.txns = [] ∧ m.err = none) := by
  unfold standBranch at h
  by_cases hact : s.game_active = true
  · rw [if_pos hact] at h
    cases hh : s.hands.get? s.current_hand with
    | none =>
      rw [hh] at h
      cases h
    | some h0 =>
      rw [hh] at h
      dsimp only at h
      repeat' split at h
      all_goals cases h
      all_goals exact Or.inr ⟨h0, _, rfl, rfl, rfl, rfl, rfl, rfl, rfl,
        rfl, rfl, rfl⟩
  · rw [if_neg hact] at h
    cases h
    exact Or.inl ⟨Bool.not_eq_true s.game_active ▸ hact, rfl⟩

/-- Inversion for the split branch: the extra bet is debited (or the
action is rejected for funds with no other effect), the current hand
becomes its first card plus a drawn card, and a second hand with the
original bet — its second card plus a drawn card — is appended at the end
of the hand list. -/
lemma splitBranch_spec (s : GameState) (bal : Int) (m : Out)
    (h : splitBranch s bal = some m) :
    (s.game_active = false ∧ m = passOut s bal) ∨
    (m = rejectOut s bal BJError.insufficientFunds) ∨
    (∃ (h0 : Hand) (c0 c1 : Card) (rest : List Card) (n1 n2 : Card)
       (deck1 deck2 : List Card) (fst snd : Hand),
      s.hands.get? s.current_hand = some h0 ∧
      h0.cards = c0 :: c1 :: rest ∧
      popCard s.deck = some (n1, deck1) ∧
      popCard deck1 = some (n2, deck2) ∧
      m.state.hands = (s.hands.set s.current_hand fst) ++ [snd] ∧
      fst.cards = [c0, n1] ∧ fst.bet_amount = h0.bet_amount ∧
      snd.cards = [c1, n2] ∧ snd.bet_amount = h0.bet_amount ∧
      m.state.deck = deck2 ∧
      m.state.dealer_hand = s.dealer_hand ∧
      m.state.game_active = s.game_active ∧
      m.balance = bal - h0.bet_amount ∧ m.txns = [] ∧ m.err = none ∧
      m.split_disabled = some true) := by
  unfold splitBranch at h
  by_cases hact : s.game_active = true
  · rw [if_pos hact] at h
    cases hh : s.hands.get? s.current_hand with
    | none =>
      rw [hh] at h
      cases h
    | some h0 =>
      rw [hh] at h
      dsimp only at h
      by_cases hrej : bal < h0.bet_amount
      · rw [if_pos hrej] at h
        cases h
        exact Or.inr (Or.inl rfl)
      · rw [if_neg hrej] at h
        cases hcards : h0.cards with
        | nil =>
          rw [hcards] at h
          cases h
        | cons c0 t =>
          cases t with
          | nil =>
            rw [hcards] at h
            cases h
          | cons c1 rest =>
            rw [hcards] at h
            dsimp only at h
            cases hpop1 : popCard s.deck with
            | none =>
              rw [hpop1] at h
              cases h
            | some p =>
              obtain ⟨n1, deck1⟩ := p
              rw [hpop1] at h
              dsimp only at h
              cases hpop2 : popCard deck1 with
              | none =>
                rw [hpop2] at h
                cases h
              | some q =>
                obtain ⟨n2, deck2⟩ := q
                rw [hpop2] at h
                dsimp only at h
                cases h
                exact Or.inr (Or.inr ⟨h0, c0, c1, rest, n1, n2, deck1, deck2,
                  _, _, rfl, hcards, rfl, hpop2, rfl, rfl, rfl, rfl, rfl, rfl,
                  rfl, rfl, rfl, rfl, rfl, rfl⟩)
  · rw [if_neg hact] at h
    cases h
    exact Or.inl ⟨Bool.not_eq_true s.game_active ▸ hact, rfl⟩

/-- Inversion for the deal branch: rejection with no effect on a
non-positive bet or on insufficient funds; otherwise the bet is debited,
two cards go to a single fresh player hand and two to the dealer, and the
round either settles immediately on a player 21 (paying the bet back on a
dealer 21, else five halves of the bet rounded down) or enters the player
turn with the split/double offers decided against the pre-debit balance. -/
lemma dealBranch_spec (sh : List Card) (bet : Int) (s : GameState)
    (bal : Int) (m : Out) (h : dealBranch sh bet s bal = some m) :
    (bet ≤ 0 ∧ m = rejectOut s bal BJError.invalidBet) ∨
    (0 < bet ∧ bal < bet ∧ m = rejectOut s bal BJError.insufficientFunds) ∨
    (0 < bet ∧ bet ≤ bal ∧
     ∃ (p1 : Card) (d1 : List Card) (p2 : Card) (d2 : List Card)
       (c1 : Card) (d3 : List Card) (c2 : Card) (d4 : List Card) (h1 : Hand),
       popCard sh = some (p1, d1) ∧ popCard d1 = some (p2, d2) ∧
       popCard d2 = some (c1, d3) ∧ popCard d3 = some (c2, d4) ∧
       m.state.deck = d4 ∧ m.state.dealer_hand = [c1, c2] ∧
       m.state.hands = [h1] ∧ h1.cards = [p1, p2] ∧ h1.bet_amount = bet ∧
       m.state.dealer_turn = false ∧ m.state.current_hand = 0 ∧
       ((calculate_hand_value [p1, p2] = 21 ∧ m.state.game_active = false ∧
         m.err = none ∧
         m.balance = bal - bet +
           (if calculate_hand_value [c1, c2] = 21 then bet else (5 * bet) / 2) ∧
         m.txns = [Txn.mk
           (if calculate_hand_value [c1, c2] = 21 then "blackjack_push"
            else "blackjack_blackjack")
           ((if calculate_hand_value [c1, c2] = 21 then bet
             else (5 * bet) / 2) - bet)] ∧
         m.deal_disabled = some false) ∨
        (calculate_hand_value [p1, p2] ≠ 21 ∧ m.state.game_active = true ∧
         m.err = none ∧ m.balance = bal - bet ∧ m.txns = [] ∧
         m.split_disabled =
           some (if can_split_hand [p1, p2] = true ∧ bet ≤ bal
                 then false else true)))) := by
  unfold dealBranch at h
  by_cases hneg : bet ≤ 0
  · rw [if_pos hneg] at h
    cases h
    exact Or.inl ⟨hneg, rfl⟩
  · rw [if_neg hneg] at h
    by_cases hfund : bal < bet
    · rw [if_pos hfund] at h
      cases h
      exact Or.inr (Or.inl ⟨by omega, hfund, rfl⟩)
    · rw [if_neg hfund] at h
      cases hp1 : popCard sh with
      | none => rw [hp1] at h; cases h
      | some q1 =>
        obtain ⟨p1, d1⟩ := q1
        rw [hp1] at h
        dsimp only at h
        cases hp2 : popCard d1 with
        | none => rw [hp2] at h; cases h
        | some q2 =>
          obtain ⟨p2, d2⟩ := q2
          rw [hp2] at h
          dsimp only at h
          cases hp3 : popCard d2 with
          | none => rw [hp3] at h; cases h
          | some q3 =>
            obtain ⟨c1, d3⟩ := q3
            rw [hp3] at h
            dsimp only at h
            cases hp4 : popCard d3 with
            | none => rw [hp4] at h; cases h
            | some q4 =>
              obtain ⟨c2, d4⟩ := q4
              rw [hp4] at h
              dsimp only at h
              by_cases hbj : calculate_hand_value [p1, p2] = 21
              · rw [if_pos hbj] at h
                cases h
                refine Or.inr (Or.inr ⟨by omega, by omega,
                  p1, d1, p2, d2, c1, d3, c2, d4, _, rfl, hp2, hp3, hp4,
                  rfl, rfl, rfl, rfl, rfl, rfl, rfl,
                  Or.inl ⟨hbj, rfl, rfl, rfl, rfl, rfl⟩⟩)
              · rw [if_neg hbj] at h
                cases h
                refine Or.inr (Or.inr ⟨by omega, by omega,
                  p1, d1, p2, d2, c1, d3, c2, d4, _, rfl, hp2, hp3, hp4,
                  rfl, rfl, rfl, rfl, rfl, rfl, rfl,
                  Or.inr ⟨hbj, rfl, rfl, rfl, rfl, rfl⟩⟩)

/-- The settlement block is a no-op unless an error-free branch outcome
has both dealer_turn and game_active set. -/
lemma settleWrapper_pass (m : Out)
    (hc : m.err.isSome = true ∨ m.state.dealer_turn = false ∨
      m.state.game_active = false) :
    settleWrapper m = some m := by
  unfold settleWrapper
  by_cases he : m.err.isSome = true
  · rw [if_pos he]
  · rw [if_neg he]
    rcases hc with hc | hc | hc
    · exact absurd hc he
    · rw [if_neg (by simp [hc])]
    · rw [if_neg (by simp [hc])]

/-- A successful step factors into a branch outcome and the wrapper. -/
lemma step_bind_inv (a : Act) (sh : List Card) (bet : Int) (s : GameState)
    (bal : Int) (o : Out) (h : step a sh bet s bal = some o) :
    ∃ m, (match a with
          | Act.deal => dealBranch sh bet s bal
          | Act.hit => hitBranch false s bal
          | Act.double => hitBranch true s bal
          | Act.stand => standBranch s bal
          | Act.split => splitBranch s bal) = some m ∧
      settleWrapper m = some o := by
  cases a <;> exact Option.bind_eq_some.mp h

/-- A deal never fires the settlement block: the step result is the branch
outcome itself. -/
lemma step_deal_inv (sh : List Card) (bet : Int) (s : GameState) (bal : Int)
    (o : Out) (h : step Act.deal sh bet s bal = some o) :
    dealBranch sh bet s bal = some o := by
  obtain ⟨m, hm, hw⟩ := step_bind_inv Act.deal sh bet s bal o h
  have hpass : settleWrapper m = some m := by
    rcases dealBranch_spec sh bet s bal m hm with ⟨_, rfl⟩ | ⟨_, _, rfl⟩ |
      ⟨_, _, p1, d1, p2, d2, c1, d3, c2, d4, h1, hp1, hp2, hp3, hp4,
       hdeck, hdealer, hhands, hcards, hbet, hdt, hcur, hcase⟩
    · exact settleWrapper_pass _ (Or.inl rfl)
    · exact settleWrapper_pass _ (Or.inl rfl)
    · exact settleWrapper_pass _ (Or.inr (Or.inl hdt))
  rw [hpass] at hw
  cases hw
  exact hm

/-- Actions other than deal are complete no-ops when no game is active. -/
lemma step_inactive (a : Act) (sh : List Card) (bet : Int) (s : GameState)
    (bal : Int) (ha : a ≠ Act.deal) (hg : s.game_active = false) :
    step a sh bet s bal = some (passOut s bal) := by
  have hpass : settleWrapper (passOut s bal) = some (passOut s bal) :=
    settleWrapper_pass _ (Or.inr (Or.inr hg))
  have hg' : ¬ s.game_active = true := by simp [hg]
  cases a with
  | deal => exact absurd rfl ha
  | hit => simp only [step, hitBranch, if_neg hg', Option.some_bind, hpass]
  | double => simp only [step, hitBranch, if_neg hg', Option.some_bind, hpass]
  | stand => simp only [step, standBranch, if_neg hg', Option.some_bind, hpass]
  | split => simp only [step, splitBranch, if_neg hg', Option.some_bind, hpass]

/-- Splitting a coerced two-element list into singleton multisets. -/
lemma coe_pair (a b : Card) :
    (([a, b] : List Card) : Multiset Card) =
      (([a] : List Card) : Multiset Card) + (([b] : List Card) : Multiset Card) := by
  exact_mod_cast (Multiset.coe_add [a] [b]).symm

/-- Multiset reading of a pop: the deck splits into the rest plus the card. -/
lemma popCard_mass (deck : List Card) (c : Card) (rest : List Card)
    (h : popCard deck = some (c, rest)) :
    (deck : Multiset Card) =
      (rest : Multiset Card) + (([c] : List Card) : Multiset Card) := by
  rw [← popCard_eq deck c rest h]
  exact_mod_cast (Multiset.coe_add rest [c]).symm

/-- The settlement block never changes the multiset of cards in play. -/
lemma wrapper_mass (o o' : Out) (h : settleWrapper o = some o') :
    roundMass o'.state = roundMass o.state := by
  rcases settleWrapper_inv o o' h with rfl |
    ⟨dh, deck', hdraw, _, _, _, hdeck, hdealer, hhands, _, _, _, _, _, _, _⟩
  · rfl
  · unfold roundMass
    rw [hdeck, hdealer, hhands]
    have hm := dealerDraw_mass _ _ _ _ _ hdraw
    rw [add_assoc, hm, ← add_assoc]

/-- handsCards across a set of one element. -/
lemma handsCards_set (l : List Hand) (i : Nat) (a a' : Hand)
    (h : l.get? i = some a) :
    handsCards (l.set i a') + (a.cards : Multiset Card) =
      handsCards l + (a'.cards : Multiset Card) :=
  map_set_sum (fun x => (x.cards : Multiset Card)) l i a a' h

/-- handsCards across an append of one hand. -/
lemma handsCards_append (l : List Hand) (x : Hand) :
    handsCards (l ++ [x]) = handsCards l + (x.cards : Multiset Card) := by
  unfold handsCards
  simp

/-- The hit/double branch conserves the multiset of cards in play. -/
lemma hitBranch_mass (d : Bool) (s : GameState) (bal : Int) (m : Out)
    (hm : hitBranch d s bal = some m) : roundMass m.state = roundMass s := by
  rcases hitBranch_spec d s bal m hm with ⟨_, rfl⟩ | rfl |
    ⟨h0, c, deck', st2, hget, hpop, hhands, hcards, hbet, hdeck, hdealer,
     hga, hbal, htx, herr⟩
  · rfl
  · rfl
  · unfold roundMass
    rw [hhands, hdeck, hdealer, popCard_mass s.deck c deck' hpop]
    have hst : (st2.cards : Multiset Card) =
        (h0.cards : Multiset Card) + (([c] : List Card) : Multiset Card) := by
      rw [hcards]
      exact_mod_cast (Multiset.coe_add h0.cards [c]).symm
    refine add_right_cancel (b := (h0.cards : Multiset Card)) ?_
    calc handsCards (s.hands.set s.current_hand st2) +
          (s.dealer_hand : Multiset Card) + (deck' : Multiset Card) +
          (h0.cards : Multiset Card)
        = handsCards (s.hands.set s.current_hand st2) +
          (h0.cards : Multiset Card) +
          ((s.dealer_hand : Multiset Card) + (deck' : Multiset Card)) := by
          abel
      _ = handsCards s.hands + (st2.cards : Multiset Card) +
          ((s.dealer_hand : Multiset Card) + (deck' : Multiset Card)) := by
          rw [handsCards_set s.hands s.current_hand h0 st2 hget]
      _ = handsCards s.hands + ((h0.cards : Multiset Card) +
            (([c] : List Card) : Multiset Card)) +
          ((s.dealer_hand : Multiset Card) + (deck' : Multiset Card)) := by
          rw [hst]
      _ = handsCards s.hands + (s.dealer_hand : Multiset Card) +
          ((deck' : Multiset Card) + (([c] : List Card) : Multiset Card)) +
          (h0.cards : Multiset Card) := by abel

/-- The stand branch conserves the multiset of cards in play. -/
lemma standBranch_mass (s : GameState) (bal : Int) (m : Out)
    (hm : standBranch s bal = some m) : roundMass m.state = roundMass s := by
  rcases standBranch_spec s bal m hm with ⟨_, rfl⟩ |
    ⟨h0, st2, hget, hhands, hcards, hbet, hdeck, hdealer, hga, hbal, htx, herr⟩
  · rfl
  · unfold roundMass
    rw [hhands, hdeck, hdealer]
    refine add_right_cancel (b := (h0.cards : Multiset Card)) ?_
    calc handsCards (s.hands.set s.current_hand st2) +
          (s.dealer_hand : Multiset Card) + (s.deck : Multiset Card) +
          (h0.cards : Multiset Card)
        = handsCards (s.hands.set s.current_hand st2) +
          (h0.cards : Multiset Card) +
          ((s.dealer_hand : Multiset Card) + (s.deck : Multiset Card)) := by
          abel
      _ = handsCards s.hands + (st2.cards : Multiset Card) +
          ((s.dealer_hand : Multiset Card) + (s.deck : Multiset Card)) := by
          rw [handsCards_set s.hands s.current_hand h0 st2 hget]
      _ = handsCards s.hands + (h0.cards : Multiset Card) +
          ((s.dealer_hand : Multiset Card) + (s.deck : Multiset Card)) := by
          rw [hcards]
      _ = handsCards s.hands + (s.dealer_hand : Multiset Card) +
          (s.deck : Multiset Card) + (h0.cards : Multiset Card) := by abel

/-- The split branch conserves the multiset of cards in play whenever the
current hand holds exactly two cards (always the case when the split
control is offered). -/
lemma splitBranch_mass (s : GameState) (bal : Int) (m : Out)
    (hm : splitBranch s bal = some m)
    (h2 : ∀ h0, s.hands.get? s.current_hand = some h0 → h0.cards.length = 2) :
    roundMass m.state = roundMass s := by
  rcases splitBranch_spec s bal m hm with ⟨_, rfl⟩ | rfl |
    ⟨h0, c0, c1, rest, n1, n2, deck1, deck2, fst, snd, hget, hcards,
     hpop1, hpop2, hhands, hfc, hfb, hsc, hsb, hdeck, hdealer, hga,
     hbal, htx, herr, hflag⟩
  · rfl
  · rfl
  · have hrest : rest = [] := by
      have := h2 h0 hget
      rw [hcards] at this
      simpa using this
    subst hrest
    unfold roundMass
    rw [hhands, hdeck, hdealer, handsCards_append,
      popCard_mass s.deck n1 deck1 hpop1, popCard_mass deck1 n2 deck2 hpop2]
    have hh0 : (h0.cards : Multiset Card) =
        (([c0] : List Card) : Multiset Card) +
        (([c1] : List Card) : Multiset Card) := by
      rw [hcards]
      exact_mod_cast (Multiset.coe_add [c0] [c1]).symm
    refine add_right_cancel (b := (h0.cards : Multiset Card)) ?_
    calc handsCards (s.hands.set s.current_hand fst) +
          (snd.cards : Multiset Card) + (s.dealer_hand : Multiset Card) +
          (deck2 : Multiset Card) + (h0.cards : Multiset Card)
        = handsCards (s.hands.set s.current_hand fst) +
          (h0.cards : Multiset Card) + ((snd.cards : Multiset Card) +
            (s.dealer_hand : Multiset Card) + (deck2 : Multiset Card)) := by
          abel
      _ = handsCards s.hands + (fst.cards : Multiset Card) +
          ((snd.cards : Multiset Card) + (s.dealer_hand : Multiset Card) +
            (deck2 : Multiset Card)) := by
          rw [handsCards_set s.hands s.current_hand h0 fst hget]
      _ = handsCards s.hands + (([c0, n1] : List Card) : Multiset Card) +
          ((([c1, n2] : List Card) : Multiset Card) +
            (s.dealer_hand : Multiset Card) + (deck2 : Multiset Card)) := by
          rw [hfc, hsc]
      _ = handsCards s.hands +
          ((([c0] : List Card) : Multiset Card) +
            (([n1] : List Card) : Multiset Card)) +
          (((([c1] : List Card) : Multiset Card) +
             (([n2] : List Card) : Multiset Card)) +
            (s.dealer_hand : Multiset Card) + (deck2 : Multiset Card)) := by
          rw [coe_pair c0 n1, coe_pair c1 n2]
      _ = handsCards s.hands + (s.dealer_hand : Multiset Card) +
          ((deck2 : Multiset Card) + (([n2] : List Card) : Multiset Card) +
            (([n1] : List Card) : Multiset Card)) +
          ((([c0] : List Card) : Multiset Card) +
            (([c1] : List Card) : Multiset Card)) := by abel
      _ = handsCards s.hands + (s.dealer_hand : Multiset Card) +
          ((deck2 : Multiset Card) + (([n2] : List Card) : Multiset Card) +
            (([n1] : List Card) : Multiset Card)) +
          (h0.cards : Multiset Card) := by rw [hh0]

/-- The deal branch rebuilds the round's cards from the shuffled deck. -/
lemma dealBranch_mass (sh : List Card) (bet : Int) (s : GameState)
    (bal : Int) (m : Out) (hm : dealBranch sh bet s bal = some m)
    (he : m.err = none) : roundMass m.state = (sh : Multiset Card) := by
  rcases dealBranch_spec sh bet s bal m hm with ⟨_, rfl⟩ | ⟨_, _, rfl⟩ |
    ⟨_, _, p1, d1, p2, d2, c1, d3, c2, d4, h1, hp1, hp2, hp3, hp4,
     hdeck, hdealer, hhands, hcards, hbet, hdt, hcur, hcase⟩
  · cases he
  · cases he
  · unfold roundMass
    rw [hdeck, hdealer, hhands]
    have hh : handsCards [h1] = (h1.cards : Multiset Card) := by
      unfold handsCards
      simp
    rw [hh, hcards, popCard_mass sh p1 d1 hp1, popCard_mass d1 p2 d2 hp2,
      popCard_mass d2 c1 d3 hp3, popCard_mass d3 c2 d4 hp4,
      coe_pair p1 p2, coe_pair c1 c2]
    abel

/-- More concrete cards for witness states. -/
def sevenSpades : Card := { rank := Rank.n7, suit := Suit.spades }

def nineSpades : Card := { rank := Rank.n9, suit := Suit.spades }

def twoSpades : Card := { rank := Rank.n2, suit := Suit.spades }

def queenHearts : Card := { rank := Rank.Q, suit := Suit.hearts }

def kingSpades : Card := { rank := Rank.K, suit := Suit.spades }

def queenSpades : Card := { rank := Rank.Q, suit := Suit.spades }

def kingHearts : Card := { rank := Rank.K, suit := Suit.hearts }

def eightSpades : Card := { rank := Rank.n8, suit := Suit.spades }

def eightHearts : Card := { rank := Rank.n8, suit := Suit.hearts }

def eightDiamonds : Card := { rank := Rank.n8, suit := Suit.diamonds }

/-- A mid-round state used by witnesses: one active 16-valued hand of bet
10, a small deck, dealer showing twenty. -/
def witnessState : GameState :=
  { deck := [twoSpades], dealer_hand := [queenHearts, kingDiamonds],
    hands := [{ cards := [sevenSpades, nineSpades], bet_amount := 10,
                status := HandStatus.active, is_doubled := false }],
    current_hand := 0, game_active := true, dealer_turn := false,
    initial_bet := 10 }

/-- C9: a fresh deck holds exactly 52 distinct (rank, suit) cards; a deal
puts exactly the shuffled deck's cards in play; and every later action
(hit, stand, double, and split on a two-card hand — the only hands the
split control is ever offered on) leaves the multiset of drawn plus
remaining cards invariant, so no card is ever drawn twice. -/
theorem c9_deck_conservation :
    (create_deck.length = 52 ∧ create_deck.Nodup) ∧
    (∀ (sh : List Card) (bet : Int) (s : GameState) (bal : Int) (o : Out),
      step Act.deal sh bet s bal = some o → o.err = none →
      roundMass o.state = (sh : Multiset Card)) ∧
    (∀ (a : Act) (sh : List Card) (bet : Int) (s : GameState) (bal : Int)
       (o : Out),
      a = Act.hit ∨ a = Act.stand ∨ a = Act.double →
      step a sh bet s bal = some o → roundMass o.state = roundMass s) ∧
    (∀ (sh : List Card) (bet : Int) (s : GameState) (bal : Int) (o : Out),
      step Act.split sh bet s bal = some o →
      (∀ h0, s.hands.get? s.current_hand = some h0 → h0.cards.length = 2) →
      roundMass o.state = roundMass s) := by
  refine ⟨⟨by decide, by decide⟩, ?_, ?_, ?_⟩
  · intro sh bet s bal o h he
    exact dealBranch_mass sh bet s bal o (step_deal_inv sh bet s bal o h) he
  · intro a sh bet s bal o ha h
    rcases ha with rfl | rfl | rfl
    · obtain ⟨m, hm, hw⟩ := step_bind_inv Act.hit sh bet s bal o h
      rw [wrapper_mass m o hw]
      exact hitBranch_mass false s bal m hm
    · obtain ⟨m, hm, hw⟩ := step_bind_inv Act.stand sh bet s bal o h
      rw [wrapper_mass m o hw]
      exact standBranch_mass s bal m hm
    · obtain ⟨m, hm, hw⟩ := step_bind_inv Act.double sh bet s bal o h
      rw [wrapper_mass m o hw]
      exact hitBranch_mass true s bal m hm
  · intro sh bet s bal o h h2
    obtain ⟨m, hm, hw⟩ := step_bind_inv Act.split sh bet s bal o h
    rw [wrapper_mass m o hw]
    exact splitBranch_mass s bal m hm h2

/-- Witness for C9's hit clause at a concrete mid-round state. -/
theorem c9_deck_conservation_witness :
    step Act.hit [] 0 witnessState 100 =
      some ((step Act.hit [] 0 witnessState 100).get (by decide)) ∧
    roundMass ((step Act.hit [] 0 witnessState 100).get (by decide)).state =
      roundMass witnessState :=
  ⟨(Option.some_get (by decide)).symm,
   c9_deck_conservation.2.2.1 Act.hit [] 0 witnessState 100 _ (Or.inl rfl)
     (Option.some_get (by decide)).symm⟩

/-- sumBets across a set of one element. -/
lemma sumBets_set (l : List Hand) (i : Nat) (a a' : Hand)
    (h : l.get? i = some a) :
    sumBets (l.set i a') + a.bet_amount = sumBets l + a'.bet_amount :=
  map_set_sum (fun x => x.bet_amount) l i a a' h

/-- sumBets across an append of one hand. -/
lemma sumBets_append (l : List Hand) (x : Hand) :
    sumBets (l ++ [x]) = sumBets l + x.bet_amount := by
  unfold sumBets
  simp

/-- The total payout of a settled state, recomputed from its final dealer
hand and player hands. -/
def roundPayout (st : GameState) : Int :=
  (settleHands (calculate_hand_value st.dealer_hand) st.hands).2

/-- During an active game, the hit/double branch moves tokens only into
bets: balance plus wagered total is conserved and no transaction is
written. -/
lemma hitBranch_c1 (d : Bool) (s : GameState) (bal : Int) (m : Out)
    (hm : hitBranch d s bal = some m) (hact : s.game_active = true) :
    m.state.game_active = true ∧
    m.balance + sumBets m.state.hands = bal + sumBets s.hands ∧
    m.txns = [] := by
  rcases hitBranch_spec d s bal m hm with ⟨hg, rfl⟩ | rfl |
    ⟨h0, c, deck', st2, hget, hpop, hhands, hcards, hbet, hdeck, hdealer,
     hga, hbal, htx, herr⟩
  · rw [hact] at hg
    cases hg
  · exact ⟨hact, rfl, rfl⟩
  · refine ⟨hga.trans hact, ?_, htx⟩
    have hs := sumBets_set s.hands s.current_hand h0 st2 hget
    rw [hhands, hbal]
    cases d
    · simp only [Bool.false_eq_true, if_false] at hbet ⊢
      omega
    · simp only [if_true] at hbet ⊢
      omega

/-- During an active game, the stand branch changes neither balance nor
wagered total and writes no transaction. -/
lemma standBranch_c1 (s : GameState) (bal : Int) (m : Out)
    (hm : standBranch s bal = some m) (hact : s.game_active = true) :
    m.state.game_active = true ∧
    m.balance + sumBets m.state.hands = bal + sumBets s.hands ∧
    m.txns = [] := by
  rcases standBranch_spec s bal m hm with ⟨hg, rfl⟩ |
    ⟨h0, st2, hget, hhands, hcards, hbet, hdeck, hdealer, hga, hbal, htx, herr⟩
  · rw [hact] at hg
    cases hg
  · refine ⟨hga.trans hact, ?_, htx⟩
    have hs := sumBets_set s.hands s.current_hand h0 st2 hget
    rw [hhands, hbal]
    omega

/-- During an active game, the split branch debits exactly the added
hand's bet: balance plus wagered total is conserved, no transaction. -/
lemma splitBranch_c1 (s : GameState) (bal : Int) (m : Out)
    (hm : splitBranch s bal = some m) (hact : s.game_active = true) :
    m.state.game_active = true ∧
    m.balance + sumBets m.state.hands = bal + sumBets s.hands ∧
    m.txns = [] := by
  rcases splitBranch_spec s bal m hm with ⟨hg, rfl⟩ | rfl |
    ⟨h0, c0, c1, rest, n1, n2, deck1, deck2, fst, snd, hget, hcards,
     hpop1, hpop2, hhands, hfc, hfb, hsc, hsb, hdeck, hdealer, hga,
     hbal, htx, herr, hflag⟩
  · rw [hact] at hg
    cases hg
  · exact ⟨hact, rfl, rfl⟩
  · refine ⟨hga.trans hact, ?_, htx⟩
    have hs := sumBets_set s.hands s.current_hand h0 fst hget
    rw [hhands, hbal, sumBets_append]
    omega

/-- Ledger reading of the settlement block: it either passes through or
marks the round inactive, credits the total payout once, and records the
single audit transaction of the payout minus the wagered total. -/
lemma wrapper_c1 (m o : Out) (hw : settleWrapper m = some o) :
    o = m ∨
    (o.state.game_active = false ∧ o.state.hands = m.state.hands ∧
     o.balance = m.balance + roundPayout o.state ∧
     o.txns = m.txns ++
       [Txn.mk "blackjack_round" (roundPayout o.state - sumBets m.state.hands)]) := by
  rcases settleWrapper_inv m o hw with rfl |
    ⟨dh, deck', hdraw, _, _, _, hdeck, hdealer, hhands, _, hga, hbal,
     htxns, _, _, _⟩
  · exact Or.inl rfl
  · refine Or.inr ⟨hga, hhands, ?_, ?_⟩
    · rw [hbal]
      unfold roundPayout
      rw [hdealer, hhands]
    · rw [htxns]
      unfold roundPayout
      rw [hdealer, hhands]

/-- One post-deal action on an active round: either the round stays
active with balance-plus-wagered conserved and no transaction, or it
settles — the single audit transaction records the total payout minus the
final wagered total, and the credited payout enters the balance. -/
lemma step_play_c1 (a : Act) (s : GameState) (bal : Int) (o : Out)
    (ha : a ≠ Act.deal) (h : step a [] 0 s bal = some o)
    (hact : s.game_active = true) :
    (o.state.game_active = true ∧
     o.balance + sumBets o.state.hands = bal + sumBets s.hands ∧
     o.txns = []) ∨
    (o.state.game_active = false ∧
     o.txns = [Txn.mk "blackjack_round"
       (roundPayout o.state - sumBets o.state.hands)] ∧
     o.balance + sumBets o.state.hands =
       bal + sumBets s.hands + roundPayout o.state) := by
  obtain ⟨m, hm, hw⟩ := step_bind_inv a [] 0 s bal o h
  have hP : m.state.game_active = true ∧
      m.balance + sumBets m.state.hands = bal + sumBets s.hands ∧
      m.txns = [] := by
    cases a with
    | deal => exact absurd rfl ha
    | hit => exact hitBranch_c1 false s bal m hm hact
    | double => exact hitBranch_c1 true s bal m hm hact
    | stand => exact standBranch_c1 s bal m hm hact
    | split => exact splitBranch_c1 s bal m hm hact
  rcases wrapper_c1 m o hw with rfl | ⟨hga, hhands, hbal, htx⟩
  · exact Or.inl hP
  · have hsum : sumBets o.state.hands = sumBets m.state.hands := by
      rw [hhands]
    refine Or.inr ⟨hga, ?_, ?_⟩
    · rw [htx, hP.2.2, hsum]
      rfl
    · rw [hbal, hsum]
      have := hP.2.1
      omega

/-- Invariant carried by `runPlay`: while the round is active the balance
plus the wagered total stays at the constant fixed after the deal and no
transaction exists; once settled, the one audit transaction and the final
balance both reflect the payout minus the wagered total. -/
lemma runPlay_c1 (C : Int) :
    ∀ (acts : List Act) (s : GameState) (bal : Int) (t : List Txn)
      (r : GameState × Int × List Txn),
    (∀ a ∈ acts, a ≠ Act.deal) →
    runPlay acts s bal t = some r →
    ((s.game_active = true ∧ bal + sumBets s.hands = C ∧ t = []) ∨
     (s.game_active = false ∧
      t = [Txn.mk "blackjack_round" (roundPayout s - sumBets s.hands)] ∧
      bal + sumBets s.hands = C + roundPayout s)) →
    ((r.1.game_active = true ∧ r.2.1 + sumBets r.1.hands = C ∧ r.2.2 = []) ∨
     (r.1.game_active = false ∧
      r.2.2 = [Txn.mk "blackjack_round" (roundPayout r.1 - sumBets r.1.hands)] ∧
      r.2.1 + sumBets r.1.hands = C + roundPayout r.1)) := by
  intro acts
  induction acts with
  | nil =>
    intro s bal t r ha hrun hinv
    unfold runPlay at hrun
    cases hrun
    exact hinv
  | cons a rest ih =>
    intro s bal t r ha hrun hinv
    unfold runPlay at hrun
    cases hstep : step a [] 0 s bal with
    | none => rw [hstep] at hrun; cases hrun
    | some o =>
      rw [hstep] at hrun
      dsimp only at hrun
      have hane : a ≠ Act.deal := ha a (by simp)
      have harest : ∀ x ∈ rest, x ≠ Act.deal := fun x hx => ha x (by simp [hx])
      rcases hinv with ⟨hact, hC, rfl⟩ | ⟨hinact, ht, hC⟩
      · rcases step_play_c1 a s bal o hane hstep hact with
          ⟨hga, hC2, htx⟩ | ⟨hga, htx, hC2⟩
        · refine ih o.state o.balance o.txns r harest hrun (Or.inl ⟨hga, ?_, ?_⟩)
          · omega
          · simp [htx]
        · refine ih o.state o.balance (List.nil ++ o.txns) r harest hrun
            (Or.inr ⟨hga, ?_, ?_⟩)
          · simp [htx]
          · omega
      · rw [step_inactive a [] 0 s bal hane hinact] at hstep
        cases hstep
        refine ih s bal (t ++ []) r harest hrun (Or.inr ⟨hinact, ?_, hC⟩)
        simp [ht]

/-- C1: for every round that reaches settlement through the normal
(non-immediate-blackjack) path, the settlement's single audit transaction
records `totalPayout - totalWagered` (wagered = sum of the final hands'
bet amounts, which includes every double and split add-on), and the
ledger balance delta across the whole round — initial deal debit, all
double/split debits, final settlement credit — equals that same amount:
no debit or credit is lost or duplicated. -/
theorem c1_round_conservation (sh : List Card) (bet : Int) (acts : List Act)
    (s : GameState) (bal : Int) (r : GameState × Int × List Txn)
    (ha : ∀ a ∈ acts, a ≠ Act.deal)
    (hrun : runRound sh bet acts s bal = some r)
    (hset : r.1.game_active = false) :
    r.2.2 = [Txn.mk "blackjack_round" (roundPayout r.1 - sumBets r.1.hands)] ∧
    r.2.1 - bal = roundPayout r.1 - sumBets r.1.hands := by
  unfold runRound at hrun
  cases hstep : step Act.deal sh bet s bal with
  | none => rw [hstep] at hrun; cases hrun
  | some o =>
    rw [hstep] at hrun
    dsimp only at hrun
    by_cases hok : o.err = none ∧ o.state.game_active = true
    · rw [if_pos hok] at hrun
      have hdb := step_deal_inv sh bet s bal o hstep
      rcases dealBranch_spec sh bet s bal o hdb with ⟨_, rfl⟩ | ⟨_, _, rfl⟩ |
        ⟨hpos, hle, p1, d1, p2, d2, c1, d3, c2, d4, h1, hp1, hp2, hp3, hp4,
         hdeck, hdealer, hhands, hcards, hbet, hdt, hcur, hcase⟩
      · simp [rejectOut] at hok
      · simp [rejectOut] at hok
      · rcases hcase with ⟨_, hga, _⟩ | ⟨hne, hga, herr, hbal, htx, _⟩
        · rw [hok.2] at hga
          cases hga
        · have hsum : sumBets o.state.hands = bet := by
            rw [hhands]
            unfold sumBets
            simp [hbet]
          have hinv : o.balance + sumBets o.state.hands = bal := by
            rw [hsum, hbal]
            omega
          have hfin := runPlay_c1 bal acts o.state o.balance o.txns r ha hrun
            (Or.inl ⟨hok.2, hinv, htx⟩)
          rcases hfin with ⟨hga2, _, _⟩ | ⟨_, htxf, hbalf⟩
          · rw [hset] at hga2
            cases hga2
          · exact ⟨htxf, by omega⟩
    · rw [if_neg hok] at hrun
      cases hrun

/-- Shuffled deck for the C1 witness round: the player draws 9-7 (16), the
dealer queen-king (20), and two cards remain. -/
def c1Shuffle : List Card :=
  [kingSpades, queenSpades, kingHearts, queenHearts, sevenSpades, nineSpades]

/-- Witness for C1: a concrete dealt-and-stood round settles with the
audit transaction equal to the ledger delta. -/
theorem c1_round_conservation_witness :
    (∀ a ∈ [Act.stand], a ≠ Act.deal) ∧
    runRound c1Shuffle 10 [Act.stand] idleState 100 =
      some ((runRound c1Shuffle 10 [Act.stand] idleState 100).get (by decide)) ∧
    ((runRound c1Shuffle 10 [Act.stand] idleState 100).get
      (by decide)).1.game_active = false ∧
    (((runRound c1Shuffle 10 [Act.stand] idleState 100).get (by decide)).2.2 =
      [Txn.mk "blackjack_round"
        (roundPayout ((runRound c1Shuffle 10 [Act.stand] idleState 100).get
            (by decide)).1 -
         sumBets ((runRound c1Shuffle 10 [Act.stand] idleState 100).get
            (by decide)).1.hands)] ∧
     ((runRound c1Shuffle 10 [Act.stand] idleState 100).get (by decide)).2.1 -
        100 =
       roundPayout ((runRound c1Shuffle 10 [Act.stand] idleState 100).get
          (by decide)).1 -
       sumBets ((runRound c1Shuffle 10 [Act.stand] idleState 100).get
          (by decide)).1.hands) :=
  ⟨by decide, (Option.some_get (by decide)).symm, by decide,
   c1_round_conservation c1Shuffle 10 [Act.stand] idleState 100 _ (by decide)
     (Option.some_get (by decide)).symm (by decide)⟩

/-- Shuffled deck for the C4 scenarios: the player draws Ace-King
(blackjack), the dealer nine-queen (19). -/
def c4Shuffle : List Card := [queenSpades, nineSpades, kingHearts, aceSpades]

/-- Counterexample to C4 as stated: at bet 5 the immediate-blackjack deal
credits 12 tokens (int(5 * 2.5)), not 5 * 2.5 = 12.5 — the balance goes
from 100 to 107, and twice the payout (2 * 12 = 24) differs from five
times the bet (25), so the payout is not betAmount * 2.5. -/
theorem c4_payout_counterexample :
    ((step Act.deal c4Shuffle 5 idleState 100).map (fun o => o.balance)) =
      some 107 ∧
    ¬ (2 * ((107 : Int) - (100 - 5)) = 5 * 5) :=
  ⟨by decide, by decide⟩

/-- C4 (amended): when a deal with a positive, affordable bet gives the
player a two-card 21, the round settles immediately — never entering the
player turn or the generic settlement loop — crediting
`int(betAmount * 2.5)` = ⌊5·bet/2⌋ against a non-blackjack dealer (equal
to betAmount * 2.5 whenever the bet is even) and betAmount (a push) when
the dealer also holds 21. -/
theorem c4_blackjack_payout (sh : List Card) (bet : Int) (s : GameState)
    (bal : Int) (o : Out) (hpos : 0 < bet) (hle : bet ≤ bal)
    (h : step Act.deal sh bet s bal = some o)
    (p1 : Card) (d1 : List Card) (p2 : Card) (d2 : List Card)
    (c1 : Card) (d3 : List Card) (c2 : Card) (d4 : List Card)
    (hq1 : popCard sh = some (p1, d1)) (hq2 : popCard d1 = some (p2, d2))
    (hq3 : popCard d2 = some (c1, d3)) (hq4 : popCard d3 = some (c2, d4))
    (hbj : calculate_hand_value [p1, p2] = 21) :
    o.state.game_active = false ∧ o.state.dealer_turn = false ∧
    o.err = none ∧
    (calculate_hand_value [c1, c2] ≠ 21 →
      o.balance = bal - bet + (5 * bet) / 2 ∧
      o.txns = [Txn.mk "blackjack_blackjack" ((5 * bet) / 2 - bet)]) ∧
    (calculate_hand_value [c1, c2] = 21 →
      o.balance = bal ∧ o.txns = [Txn.mk "blackjack_push" 0]) := by
  have hdb := step_deal_inv sh bet s bal o h
  rcases dealBranch_spec sh bet s bal o hdb with ⟨hneg, _⟩ | ⟨_, hfund, _⟩ |
    ⟨_, _, p1', d1', p2', d2', c1', d3', c2', d4', h1, hp1, hp2, hp3, hp4,
     hdeck, hdealer, hhands, hcards, hbet, hdt, hcur, hcase⟩
  · omega
  · omega
  · cases hp1.symm.trans hq1
    cases hp2.symm.trans hq2
    cases hp3.symm.trans hq3
    cases hp4.symm.trans hq4
    rcases hcase with ⟨_, hga, herr, hbal, htx, _⟩ | ⟨hne, _, _, _, _, _⟩
    · refine ⟨hga, hdt, herr, ?_, ?_⟩
      · intro hd
        simp only [if_neg hd] at hbal htx
        exact ⟨hbal, htx⟩
      · intro hd
        simp only [if_pos hd] at hbal htx
        constructor
        · rw [hbal]
          omega
        · rw [htx]
          have he : bet - bet = (0 : Int) := by omega
          rw [he]
    · exact absurd hbj hne

/-- Witness for C4 at the spec's own scenario: bet 20, balance 100, player
Ace-King versus dealer 19 — immediate settlement at balance 130
(delta +30). -/
theorem c4_blackjack_payout_witness :
    (0 : Int) < 20 ∧ (20 : Int) ≤ 100 ∧
    calculate_hand_value [aceSpades, kingHearts] = 21 ∧
    calculate_hand_value [nineSpades, queenSpades] ≠ 21 ∧
    ((step Act.deal c4Shuffle 20 idleState 100).get (by decide)).balance =
      100 - 20 + (5 * 20) / 2 ∧
    ((step Act.deal c4Shuffle 20 idleState 100).get
      (by decide)).state.game_active = false := by
  have h := c4_blackjack_payout c4Shuffle 20 idleState 100
    ((step Act.deal c4Shuffle 20 idleState 100).get (by decide))
    (by decide) (by decide) (Option.some_get (by decide)).symm
    aceSpades [queenSpades, nineSpades, kingHearts]
    kingHearts [queenSpades, nineSpades]
    nineSpades [queenSpades] queenSpades []
    (by decide) (by decide) (by decide) (by decide) (by decide)
  exact ⟨by decide, by decide, by decide, by decide,
    (h.2.2.2.1 (by decide)).1, h.1⟩

/-- State for the C5 scenarios: a splittable pair of eights, a deck whose
next card for the first split hand is another eight, ample balance. -/
def resplitState : GameState :=
  { deck := [twoSpades, eightDiamonds],
    dealer_hand := [queenHearts, kingDiamonds],
    hands := [{ cards := [eightSpades, eightHearts], bet_amount := 10,
                status := HandStatus.active, is_doubled := false }],
    current_hand := 0, game_active := true, dealer_turn := false,
    initial_bet := 10 }

/-- Counterexample to C5 as stated: after splitting the pair of eights the
current (first) split hand is again an eligible two-card pair of eights
and the balance (990) covers its bet (10), yet the Split control comes
back disabled — a hand produced by a split can never be split again. -/
theorem c5_resplit_counterexample :
    ((step Act.split [] 0 resplitState 1000).map (fun o =>
      (o.split_disabled,
       can_split_hand (((o.state.hands.get? o.state.current_hand).map
         Hand.cards).getD []),
       decide (((o.state.hands.get? o.state.current_hand).map
         Hand.bet_amount).getD 0 ≤ o.balance)))) =
      some (some true, true, true) := by
  decide

/-- The hit/double branch never enables the Split control: its rejection
returns no_update and every other response disables it. -/
lemma hitBranch_flag (d : Bool) (s : GameState) (bal : Int) (m : Out)
    (hm : hitBranch d s bal = some m) :
    m.split_disabled = some true ∨ m.split_disabled = none := by
  unfold hitBranch at hm
  by_cases hact : s.game_active = true
  · rw [if_pos hact] at hm
    cases hh : s.hands.get? s.current_hand with
    | none =>
      rw [hh] at hm
      cases hm
    | some h0 =>
      rw [hh] at hm
      dsimp only at hm
      by_cases hrej : d = true ∧ bal < h0.bet_amount
      · rw [if_pos hrej] at hm
        cases hm
        exact Or.inr rfl
      · rw [if_neg hrej] at hm
        cases hpop : popCard s.deck with
        | none =>
          rw [hpop] at hm
          cases hm
        | some p =>
          obtain ⟨c, deck'⟩ := p
          rw [hpop] at hm
          dsimp only at hm
          repeat' split at hm
          all_goals cases hm
          all_goals exact Or.inl rfl
  · rw [if_neg hact] at hm
    cases hm
    exact Or.inl rfl

/-- The stand branch never enables the Split control. -/
lemma standBranch_flag (s : GameState) (bal : Int) (m : Out)
    (hm : standBranch s bal = some m) :
    m.split_disabled = some true ∨ m.split_disabled = none := by
  unfold standBranch at hm
  by_cases hact : s.game_active = true
  · rw [if_pos hact] at hm
    cases hh : s.hands.get? s.current_hand with
    | none =>
      rw [hh] at hm
      cases hm
    | some h0 =>
      rw [hh] at hm
      dsimp only at hm
      repeat' split at hm
      all_goals cases hm
      all_goals exact Or.inl rfl
  · rw [if_neg hact] at hm
    cases hm
    exact Or.inl rfl

/-- The split branch never enables the Split control: the one response
that performs a split disables it unconditionally. -/
lemma splitBranch_flag (s : GameState) (bal : Int) (m : Out)
    (hm : splitBranch s bal = some m) :
    m.split_disabled = some true ∨ m.split_disabled = none := by
  rcases splitBranch_spec s bal m hm with ⟨_, rfl⟩ | rfl |
    ⟨_, _, _, _, _, _, _, _, _, _, _, _, _, _, _, _, _, _, _, _, _, _,
     _, _, _, hflag⟩
  · exact Or.inl rfl
  · exact Or.inr rfl
  · exact Or.inl hflag

/-- No response to a non-deal action enables the Split control: the
branch either disables it or returns no_update, and the settlement block
disables it. -/
lemma step_nondeal_flag (a : Act) (sh : List Card) (bet : Int)
    (s : GameState) (bal : Int) (o : Out) (ha : a ≠ Act.deal)
    (h : step a sh bet s bal = some o) :
    o.split_disabled = some true ∨ o.split_disabled = none := by
  obtain ⟨m, hm, hw⟩ := step_bind_inv a sh bet s bal o h
  have hflag : m.split_disabled = some true ∨ m.split_disabled = none := by
    cases a with
    | deal => exact absurd rfl ha
    | hit => exact hitBranch_flag false s bal m hm
    | double => exact hitBranch_flag true s bal m hm
    | stand => exact standBranch_flag s bal m hm
    | split => exact splitBranch_flag s bal m hm
  rcases settleWrapper_inv m o hw with rfl |
    ⟨_, _, _, _, _, _, _, _, _, _, _, _, _, _, hsplit, _⟩
  · exact hflag
  · exact Or.inl hsplit

/-- C5 (amended): the Split action is never offered again during the
round. The response to every non-rejected split disables the Split
control regardless of the resulting hands' eligibility or the remaining
balance; no response to any hit, stand, double or split (including the
hand-advance responses) ever enables it; and any response that does offer
Split is a response to Deal — so split is only available on the initial
hand immediately after the deal, and a hand produced by a split can never
be split again. -/
theorem c5_no_resplit :
    (∀ (sh : List Card) (bet : Int) (s : GameState) (bal : Int) (o : Out),
      step Act.split sh bet s bal = some o → o.err = none →
      o.split_disabled = some true) ∧
    (∀ (a : Act) (sh : List Card) (bet : Int) (s : GameState) (bal : Int)
       (o : Out), a ≠ Act.deal → step a sh bet s bal = some o →
      o.split_disabled ≠ some false) ∧
    (∀ (a : Act) (sh : List Card) (bet : Int) (s : GameState) (bal : Int)
       (o : Out), step a sh bet s bal = some o →
      o.split_disabled = some false → a = Act.deal) := by
  refine ⟨?_, ?_, ?_⟩
  · intro sh bet s bal o h he
    obtain ⟨m, hm, hw⟩ := step_bind_inv Act.split sh bet s bal o h
    rcases settleWrapper_inv m o hw with rfl |
      ⟨_, _, _, _, _, _, _, _, _, _, _, _, _, _, hsplit, _⟩
    · rcases splitBranch_spec s bal o hm with ⟨_, rfl⟩ | rfl |
        ⟨_, _, _, _, _, _, _, _, _, _, _, _, _, _, _, _, _, _, _, _, _, _,
         _, _, _, hflag⟩
      · rfl
      · cases he
      · exact hflag
    · exact hsplit
  · intro a sh bet s bal o ha h hfalse
    rcases step_nondeal_flag a sh bet s bal o ha h with ht | hn
    · rw [hfalse] at ht
      cases ht
    · rw [hfalse] at hn
      cases hn
  · intro a sh bet s bal o h hfalse
    by_cases ha : a = Act.deal
    · exact ha
    · rcases step_nondeal_flag a sh bet s bal o ha h with ht | hn
      · rw [hfalse] at ht
        cases ht
      · rw [hfalse] at hn
        cases hn

/-- Witness for C5's amended statement at the concrete re-split state. -/
theorem c5_no_resplit_witness :
    step Act.split [] 0 resplitState 1000 =
      some ((step Act.split [] 0 resplitState 1000).get (by decide)) ∧
    ((step Act.split [] 0 resplitState 1000).get (by decide)).err = none ∧
    ((step Act.split [] 0 resplitState 1000).get
      (by decide)).split_disabled = some true :=
  ⟨(Option.some_get (by decide)).symm, by decide,
   c5_no_resplit.1 [] 0 resplitState 1000 _
     (Option.some_get (by decide)).symm (by decide)⟩

/-- C6 (code bug): a Deal issued while a round is in PlayerTurn is not
rejected — the callback never re-checks for an active round (and the hit,
stand and split responses leave the Deal button at its enabled default) —
so a fresh round is created, cards are dealt and the bet is debited,
abandoning the active round's wagers. -/
theorem c6_deal_ignores_active_round :
    witnessState.game_active = true ∧
    ((step Act.deal c1Shuffle 10 witnessState 100).map
      (fun o => (o.err, o.balance, o.state.game_active, o.writes))) =
      some (none, 90, true, [DbWrite.roundInsert, DbWrite.handInsert]) := by
  exact ⟨rfl, by decide⟩

/-- C7: an InsufficientFunds rejection of Deal, Double or Split happens
before any mutation: the callback returns the same state and balance with
no transaction and no database write, and — the outputs echoing the
inputs — invoking the same action again from the returned state yields
the identical rejection. -/
theorem c7_rejection_no_effect :
    (∀ (sh : List Card) (bet : Int) (s : GameState) (bal : Int),
      0 < bet → bal < bet →
      step Act.deal sh bet s bal =
        some (rejectOut s bal BJError.insufficientFunds)) ∧
    (∀ (s : GameState) (bal : Int) (h0 : Hand),
      s.game_active = true → s.hands.get? s.current_hand = some h0 →
      bal < h0.bet_amount →
      step Act.double [] 0 s bal =
        some (rejectOut s bal BJError.insufficientFunds)) ∧
    (∀ (s : GameState) (bal : Int) (h0 : Hand),
      s.game_active = true → s.hands.get? s.current_hand = some h0 →
      bal < h0.bet_amount →
      step Act.split [] 0 s bal =
        some (rejectOut s bal BJError.insufficientFunds)) ∧
    (∀ (s : GameState) (bal : Int) (e : BJError),
      (rejectOut s bal e).state = s ∧ (rejectOut s bal e).balance = bal ∧
      (rejectOut s bal e).txns = [] ∧ (rejectOut s bal e).writes = []) ∧
    (∀ (sh : List Card) (bet : Int) (s : GameState) (bal : Int),
      0 < bet → bal < bet →
      step Act.deal sh bet
        (rejectOut s bal BJError.insufficientFunds).state
        (rejectOut s bal BJError.insufficientFunds).balance =
        some (rejectOut s bal BJError.insufficientFunds)) := by
  have hw : ∀ (s : GameState) (bal : Int),
      settleWrapper (rejectOut s bal BJError.insufficientFunds) =
        some (rejectOut s bal BJError.insufficientFunds) :=
    fun s bal => settleWrapper_pass _ (Or.inl rfl)
  have hdeal : ∀ (sh : List Card) (bet : Int) (s : GameState) (bal : Int),
      0 < bet → bal < bet →
      step Act.deal sh bet s bal =
        some (rejectOut s bal BJError.insufficientFunds) := by
    intro sh bet s bal hpos hlt
    simp only [step, dealBranch, if_neg (by omega : ¬ bet ≤ 0), if_pos hlt,
      Option.some_bind, hw]
  refine ⟨hdeal, ?_, ?_, fun s bal e => ⟨rfl, rfl, rfl, rfl⟩,
    fun sh bet s bal hpos hlt => hdeal sh bet s bal hpos hlt⟩
  · intro s bal h0 hact hget hlt
    simp only [step, hitBranch, if_pos hact, hget]
    rw [if_pos ⟨trivial, hlt⟩]
    simp only [Option.some_bind, hw]
  · intro s bal h0 hact hget hlt
    simp only [step, splitBranch, if_pos hact, hget]
    rw [if_pos hlt]
    simp only [Option.some_bind, hw]

/-- Witness for C7 at the spec's insufficient-funds scenario: balance 5,
bet 10. -/
theorem c7_rejection_no_effect_witness :
    (0 : Int) < 10 ∧ (5 : Int) < 10 ∧
    step Act.deal [] 10 idleState 5 =
      some (rejectOut idleState 5 BJError.insufficientFunds) :=
  ⟨by decide, by decide,
   c7_rejection_no_effect.1 [] 10 idleState 5 (by decide) (by decide)⟩

/-- C10: with no active game, Hit, Stand, Double and Split leave
everything unchanged — the stored round state is returned as-is, the
balance output is no_update, and no transaction or database write
happens. -/
theorem c10_inactive_frame (a : Act) (sh : List Card) (bet : Int)
    (s : GameState) (bal : Int) (ha : a ≠ Act.deal)
    (hg : s.game_active = false) :
    ∃ o, step a sh bet s bal = some o ∧ o.state = s ∧ o.balance = bal ∧
      o.txns = [] ∧ o.writes = [] :=
  ⟨passOut s bal, step_inactive a sh bet s bal ha hg, rfl, rfl, rfl, rfl⟩

/-- Witness for C10: a Hit on the idle store. -/
theorem c10_inactive_frame_witness :
    (Act.hit ≠ Act.deal) ∧ idleState.game_active = false ∧
    ∃ o, step Act.hit [] 0 idleState 50 = some o ∧ o.state = idleState ∧
      o.balance = 50 ∧ o.txns = [] ∧ o.writes = [] :=
  ⟨by decide, rfl, c10_inactive_frame Act.hit [] 0 idleState 50
    (by decide) rfl⟩
